import Mathlib

/-!
Verification development for the security-analysis pipeline of
`src/openai-proxy.cjs` (code-security-analyzer).

The JavaScript source is shallowly embedded: each JS function that the
claims touch is translated into an executable Lean definition operating on
`String` / `List Char`, with JS built-ins (`String.prototype.trim`,
`String.prototype.split`, global regexes with `lastIndex` state,
`JSON.parse`, …) modelled explicitly.  All recursion is structural (a few
scanners take an explicit fuel argument, always called with enough fuel for
the input), so every definition evaluates by `decide` / `rfl`.

Modelling conventions:
* JS strings are UTF-16 sequences; here they are Lean `String`s
  (sequences of scalar values).  For the ASCII inputs used by the concrete
  theorems the two coincide; `String.length` stands in for `.length`.
* `Math.random()*1000` (the retry jitter) is an arbitrary rational
  parameter in `[0, 1000)`.
* `parseFloat` on a `\d+.\d+` literal is modelled exactly as a rational;
  `Math.ceil` is `Int.ceil`.
* `new Date().toISOString()` is an arbitrary `String` parameter `now`.
-/

namespace SecAnalyzer

/-- JS whitespace class `\s`, restricted to its ASCII members (space, tab,
newline, carriage return, vertical tab, form feed).  All inputs considered
by the concrete theorems are ASCII. -/
def isJsWs (c : Char) : Bool :=
  c = ' ' || c = '\t' || c = '\n' || c = '\r' || c = '\x0b' || c = '\x0c'

/-- Model of `String.prototype.trim`: drop leading and trailing whitespace. -/
def strTrim (s : String) : String :=
  ⟨((s.data.dropWhile isJsWs).reverse.dropWhile isJsWs).reverse⟩

/-- Case-sensitive literal-prefix test on character lists. -/
def litPrefix : List Char → List Char → Bool
  | [], _ => true
  | _ :: _, [] => false
  | a :: as, b :: bs => a = b && litPrefix as bs

/-- Case-insensitive (ASCII `toLowerCase`) literal-prefix test, modelling
the `i` flag of the JS regexes. -/
def ciPrefix : List Char → List Char → Bool
  | [], _ => true
  | _ :: _, [] => false
  | a :: as, b :: bs => a.toLower = b.toLower && ciPrefix as bs

/-- Naive substring test, modelling `String.prototype.includes`. -/
def hasSubChars (needle : List Char) : List Char → Bool
  | [] => litPrefix needle []
  | c :: cs => litPrefix needle (c :: cs) || hasSubChars needle cs

def hasSub (needle s : String) : Bool := hasSubChars needle.data s.data

/-- One step of `text.split(/\n\n+/)`: the separator is a maximal run of
two or more newlines.  `fuel` is consumed one unit per character, so
`length + 1` fuel reproduces the JS behaviour exactly. -/
def splitParasGo : Nat → List Char → List Char → List (List Char)
  | 0, cs, acc => [acc.reverse ++ cs]
  | _ + 1, [], acc => [acc.reverse]
  | f + 1, '\n' :: cs, acc =>
    match cs with
    | '\n' :: cs2 => acc.reverse :: splitParasGo f (cs2.dropWhile (· = '\n')) []
    | _ => splitParasGo f cs ('\n' :: acc)
  | f + 1, c :: cs, acc => splitParasGo f cs (c :: acc)

/-- Model of `text.split(/\n\n+/)` (openai-proxy.cjs line 101). -/
def splitParas (s : String) : List String :=
  (splitParasGo (s.data.length + 1) s.data []).map fun l => ⟨l⟩

/-! ### Stateful global regexes of the classification pass

`componentsPattern`, `metadataPattern` and `connectionsPattern`
(lines 91–93) are global (`g`) case-insensitive alternations of literals,
created once per `componentBasedChunking` call.  `RegExp.prototype.test`
on a global regex is stateful: the search starts at `lastIndex`, a
successful test sets `lastIndex` past the match, a failed test (or a
`lastIndex` beyond the string) resets it to `0`. -/

/-- Find the first position (≥ the head of `cs`) at which one of the
literal alternatives matches case-insensitively; alternatives are tried in
order at each position, mirroring JS alternation.  Returns
(offset, match length). -/
def findLitFrom (lits : List (List Char)) : List Char → Option (Nat × Nat)
  | [] =>
    match lits.find? (fun l => ciPrefix l []) with
    | some l => some (0, l.length)
    | none => none
  | c :: cs =>
    match lits.find? (fun l => ciPrefix l (c :: cs)) with
    | some l => some (0, l.length)
    | none =>
      match findLitFrom lits cs with
      | some (off, len) => some (off + 1, len)
      | none => none

/-- Model of `pattern.test(s)` for a global case-insensitive alternation
of literals, with explicit `lastIndex` state: returns the boolean result
and the updated `lastIndex`. -/
def regexTestG (lits : List (List Char)) (s : String) (lastIndex : Nat) :
    Bool × Nat :=
  if lastIndex > s.data.length then (false, 0)
  else
    match findLitFrom lits (s.data.drop lastIndex) with
    | some (off, len) => (true, lastIndex + off + len)
    | none => (false, 0)

/-- Alternatives of `componentsPattern` (line 91), in source order. -/
def componentLits : List (List Char) :=
  ["Component:".data, "Shape:".data, "Entity:".data, "Service:".data,
   "Database:".data, "API:".data, "Server:".data, "Client:".data,
   "Interface:".data]

/-- Alternatives of `metadataPattern` (line 92), in source order. -/
def metadataLits : List (List Char) :=
  ["Label:".data, "Description:".data, "Metadata:".data, "Properties:".data,
   "Attributes:".data, "Tag:".data, "Info:".data]

/-- Alternatives of `connectionsPattern` (line 93), in source order. -/
def connectionLits : List (List Char) :=
  ["Connection:".data, "Flow:".data, "Relationship:".data, "Link:".data,
   "Arrow:".data, "Data Flow:".data, "Connects to:".data,
   "Interacts with:".data, "Sends data to:".data,
   "Receives data from:".data]

/-- The `type` field of the chunk objects built by
`componentBasedChunking`. -/
inductive ChunkType where
  | component
  | metadata
  | connection
  | connectionGroup
deriving DecidableEq

/-- `chunk.type.toUpperCase()` as used at line 180. -/
def ChunkType.tag : ChunkType → String
  | .component => "COMPONENT"
  | .metadata => "METADATA"
  | .connection => "CONNECTION"
  | .connectionGroup => "CONNECTION_GROUP"

/-- A `{ type, content }` chunk object. -/
structure Chunk where
  type : ChunkType
  content : String
deriving DecidableEq

/-- State of the `paragraphs.forEach` classification loop (lines 103–141):
the three accumulating arrays plus the `lastIndex` of each of the three
global regexes. -/
structure ClassState where
  comps : List Chunk
  metas : List Chunk
  conns : List Chunk
  liComp : Nat
  liConn : Nat
  liMeta : Nat
deriving DecidableEq

/-- The secondary heuristic `paragraph.includes("->") || … "↔" … ||
"connects" || "flow"` (lines 121–122); `includes` is case-sensitive. -/
def hasArrowish (p : String) : Bool :=
  hasSub "->" p || hasSub "↔" p || hasSub "connects" p || hasSub "flow" p

/-- One iteration of the classification loop over a paragraph
(lines 103–141).  The three regex tests short-circuit: a later regex is
only exercised (and its `lastIndex` only updated) when the earlier ones
failed. -/
def classifyStep (st : ClassState) (p : String) : ClassState :=
  if (regexTestG componentLits p st.liComp).1 then
    { st with liComp := (regexTestG componentLits p st.liComp).2,
              comps := st.comps ++ [⟨.component, strTrim p⟩] }
  else if (regexTestG connectionLits p st.liConn).1 then
    { st with liComp := (regexTestG componentLits p st.liComp).2,
              liConn := (regexTestG connectionLits p st.liConn).2,
              conns := st.conns ++ [⟨.connection, strTrim p⟩] }
  else if (regexTestG metadataLits p st.liMeta).1 then
    { st with liComp := (regexTestG componentLits p st.liComp).2,
              liConn := (regexTestG connectionLits p st.liConn).2,
              liMeta := (regexTestG metadataLits p st.liMeta).2,
              metas := st.metas ++ [⟨.metadata, strTrim p⟩] }
  else if hasArrowish p then
    { st with liComp := (regexTestG componentLits p st.liComp).2,
              liConn := (regexTestG connectionLits p st.liConn).2,
              liMeta := (regexTestG metadataLits p st.liMeta).2,
              conns := st.conns ++ [⟨.connection, strTrim p⟩] }
  else if decide (p.length < 200) && (hasSub ":" p || hasSub "=" p) then
    { st with liComp := (regexTestG componentLits p st.liComp).2,
              liConn := (regexTestG connectionLits p st.liConn).2,
              liMeta := (regexTestG metadataLits p st.liMeta).2,
              metas := st.metas ++ [⟨.metadata, strTrim p⟩] }
  else
    { st with liComp := (regexTestG componentLits p st.liComp).2,
              liConn := (regexTestG connectionLits p st.liConn).2,
              liMeta := (regexTestG metadataLits p st.liMeta).2,
              comps := st.comps ++ [⟨.component, strTrim p⟩] }

/-- The full classification pass: fold the loop body over the paragraph
list starting from empty arrays and `lastIndex = 0` on every regex. -/
def classifyParagraphs (ps : List String) : ClassState :=
  ps.foldl classifyStep ⟨[], [], [], 0, 0, 0⟩

/-! ### Grouping of connection chunks (lines 144–163)

`conn.content.match(/from\s+["']?([^"'\n,]+)["']?/i)` and friends.  Each
matcher scans for the leftmost start position at which the whole pattern
matches, with the regex backtracking behaviour made explicit: `\s+`/`\s*`
try the longest whitespace run first, `["']?` tries to consume a quote
first, and the capture `[^"'\n,]+` is a maximal nonempty run of characters
other than double quote, single quote, newline and comma. -/

/-- Characters admitted by the capture class `[^"'\n,]`. -/
def okCapChar (c : Char) : Bool :=
  !(c = '"' || c = '\'' || c = '\n' || c = ',')

/-- Attempt `["']?([^"'\n,]+)` at the head of `r` (after the whitespace of
the pattern has been consumed): first try with the optional quote
consumed, falling back to no quote, as the greedy `?` does. -/
def capAttempt (r : List Char) : Option (List Char) :=
  match r with
  | [] => none
  | c :: rest =>
    if c = '"' || c = '\'' then
      match rest.takeWhile okCapChar with
      | [] => none
      | cap => some cap
    else
      match (c :: rest).takeWhile okCapChar with
      | [] => none
      | cap => some cap

/-- Backtrack the `\s+` of `/from\s+…/` from `w` whitespace characters
down to one, taking the first success (greedy semantics).  `r` starts at
the whitespace run; the first `w` characters of `r` are whitespace. -/
def wsPlusAttempt (r : List Char) : Nat → Option (List Char)
  | 0 => none
  | w + 1 =>
    match capAttempt (r.drop (w + 1)) with
    | some cap => some cap
    | none => wsPlusAttempt r w

/-- Backtrack a `\s*` from `w` whitespace characters down to zero. -/
def wsStarAttempt (r : List Char) : Nat → Option (List Char)
  | 0 => capAttempt r
  | w + 1 =>
    match capAttempt (r.drop (w + 1)) with
    | some cap => some cap
    | none => wsStarAttempt r w

/-- Attempt `/lit\s+["']?([^"'\n,]+)["']?/i` at the head position
(`lit` is `from` or `to`). -/
def litWsCapAt (lit : List Char) (cs : List Char) : Option (List Char) :=
  if ciPrefix lit cs then
    let r := cs.drop lit.length
    wsPlusAttempt r ((r.takeWhile isJsWs).length)
  else none

/-- Attempt `/lit\s*[:=]\s*["']?([^"'\n,]+)["']?/i` at the head position
(`lit` is `source` or `target`).  The first `\s*` is deterministic
maximal-munch: shorter whitespace would put a whitespace character where
`[:=]` must match. -/
def litKvCapAt (lit : List Char) (cs : List Char) : Option (List Char) :=
  if ciPrefix lit cs then
    let r := cs.drop lit.length
    let r1 := r.dropWhile isJsWs
    match r1 with
    | c :: r2 =>
      if c = ':' || c = '=' then
        wsStarAttempt r2 ((r2.takeWhile isJsWs).length)
      else none
    | [] => none
  else none

/-- Leftmost-start scan of a positional matcher over the string. -/
def firstMatchScan (att : List Char → Option (List Char)) :
    List Char → Option (List Char)
  | [] => att []
  | c :: cs =>
    match att (c :: cs) with
    | some cap => some cap
    | none => firstMatchScan att cs

/-- `conn.content.match(from-pattern) || conn.content.match(source-pattern)`
(lines 147–148), returning the first capture group. -/
def sourceMatchOf (content : String) : Option String :=
  match firstMatchScan (litWsCapAt "from".data) content.data with
  | some cap => some ⟨cap⟩
  | none =>
    match firstMatchScan (litKvCapAt "source".data) content.data with
    | some cap => some ⟨cap⟩
    | none => none

/-- `conn.content.match(to-pattern) || conn.content.match(target-pattern)`
(lines 149–150), returning the first capture group. -/
def targetMatchOf (content : String) : Option String :=
  match firstMatchScan (litWsCapAt "to".data) content.data with
  | some cap => some ⟨cap⟩
  | none =>
    match firstMatchScan (litKvCapAt "target".data) content.data with
    | some cap => some ⟨cap⟩
    | none => none

/-- `groupedConnections` is a JS object used as a dictionary; model it as
an association list in property insertion order. -/
abbrev GroupMap := List (String × List Chunk)

/-- `groupedConnections[key].push(conn)`, creating the entry when absent
(lines 152–157): updating an existing key keeps its position, a new key is
appended. -/
def pushAssoc : GroupMap → String → Chunk → GroupMap
  | [], k, c => [(k, [c])]
  | (k', l) :: rest, k, c =>
    if k' = k then (k', l ++ [c]) :: rest
    else (k', l) :: pushAssoc rest k c

/-- `groupedConnections[key] = [conn]` (line 161): plain assignment,
overwriting in place or appending. -/
def setAssoc : GroupMap → String → List Chunk → GroupMap
  | [], k, v => [(k, v)]
  | (k', l) :: rest, k, v =>
    if k' = k then (k', v) :: rest
    else (k', l) :: setAssoc rest k v

/-- One iteration of `connectionChunks.forEach` (lines 145–163). -/
def groupStep (acc : GroupMap) (c : Chunk) : GroupMap :=
  match sourceMatchOf c.content, targetMatchOf c.content with
  | some s, some t => pushAssoc acc (s ++ "_" ++ t) c
  | _, _ => setAssoc acc ("conn_" ++ toString acc.length) [c]

/-- The grouping pass over the classified connection chunks. -/
def groupConnections (conns : List Chunk) : GroupMap :=
  conns.foldl groupStep []

/-- `group.map(conn => conn.content).join("\n\n")` (line 172). -/
def joinSep (sep : String) : List String → String
  | [] => ""
  | [s] => s
  | s :: rest => s ++ sep ++ joinSep sep rest

/-- `allChunks` (lines 166–175): component chunks, then metadata chunks,
then one `connection_group` chunk per grouped entry, in object insertion
order. -/
def allChunksOf (text : String) : List Chunk :=
  let st := classifyParagraphs (splitParas text)
  st.comps ++ st.metas ++
    (groupConnections st.conns).map
      (fun kv => ⟨.connectionGroup, joinSep "\n\n" (kv.2.map (·.content))⟩)

/-- The filter predicate of line 179:
`chunk.content && chunk.content.trim().length > 10` (the first conjunct is
JS string truthiness, i.e. non-emptiness). -/
def keepChunk (c : Chunk) : Bool :=
  !(c.content = "") && decide (10 < (strTrim c.content).length)

/-- The map of line 180: `[TYPE]\n` followed by the chunk content. -/
def tagChunk (c : Chunk) : String :=
  "[" ++ c.type.tag ++ "]\n" ++ c.content

/-- Model of `componentBasedChunking` (lines 88–186).  The `try` block
consists solely of total string and regex operations, none of which can
throw, so the `catch` fallback to `chunkWithSlidingWindow` is unreachable
and the function is the structural pass itself: split into paragraphs,
classify, group connections, filter short chunks, tag. -/
def componentBasedChunking (text : String) : List String :=
  ((allChunksOf text).filter keepChunk).map tagChunk

/-! ### Model of `JSON.parse`

A strict JSON parser over `List Char`, modelling the JS built-in used by
`cleanAndFixJSON` (lines 247, 268, 300).  Numbers are represented exactly
as rationals (float64 rounding is not modelled; no claim depends on
numeric precision).  Error messages are informative stand-ins for the
engine-specific `SyntaxError` messages. -/

/-- Parsed JSON values.  Objects are association lists in property
insertion order; a duplicated key overwrites the value in place, as
`JSON.parse` does. -/
inductive Json where
  | null
  | bool (b : Bool)
  | num (q : ℚ)
  | str (s : String)
  | arr (elems : List Json)
  | obj (fields : List (String × Json))

/-- JSON whitespace (`ws` of ECMA-404): space, tab, line feed, carriage
return only. -/
def isJsonWs (c : Char) : Bool :=
  c = ' ' || c = '\t' || c = '\n' || c = '\r'

def skipWs (cs : List Char) : List Char := cs.dropWhile isJsonWs

/-- Assignment into the accumulating object: a repeated key overwrites in
place, a fresh key is appended. -/
def addField : List (String × Json) → String → Json → List (String × Json)
  | [], k, v => [(k, v)]
  | (k', v') :: rest, k, v =>
    if k' = k then (k', v) :: rest
    else (k', v') :: addField rest k v

/-- Decode one string escape; surrogate `\uXXXX` escapes outside the
scalar range fall back to `Char.ofNat`'s default, a corner no claim
touches. -/
def escChar (c : Char) : Option Char :=
  if c = '"' then some '"'
  else if c = '\\' then some '\\'
  else if c = '/' then some '/'
  else if c = 'b' then some '\x08'
  else if c = 'f' then some '\x0c'
  else if c = 'n' then some '\n'
  else if c = 'r' then some '\r'
  else if c = 't' then some '\t'
  else none

def hexVal (c : Char) : Option Nat :=
  if '0' ≤ c ∧ c ≤ '9' then some (c.toNat - '0'.toNat)
  else if 'a' ≤ c ∧ c ≤ 'f' then some (c.toNat - 'a'.toNat + 10)
  else if 'A' ≤ c ∧ c ≤ 'F' then some (c.toNat - 'A'.toNat + 10)
  else none

/-- Parse the body of a string literal after the opening quote, returning
the content and the remainder after the closing quote. -/
def parseStringBody : List Char → Except String (List Char × List Char)
  | [] => .error "Unterminated string in JSON"
  | '"' :: rest => .ok ([], rest)
  | '\\' :: 'u' :: h1 :: h2 :: h3 :: h4 :: rest =>
    match hexVal h1, hexVal h2, hexVal h3, hexVal h4 with
    | some a, some b, some c, some d =>
      match parseStringBody rest with
      | .ok (content, r) =>
        .ok (Char.ofNat (((a * 16 + b) * 16 + c) * 16 + d) :: content, r)
      | .error e => .error e
    | _, _, _, _ => .error "Bad Unicode escape in JSON"
  | '\\' :: e :: rest =>
    match escChar e with
    | some c =>
      match parseStringBody rest with
      | .ok (content, r) => .ok (c :: content, r)
      | .error err => .error err
    | none => .error "Bad escaped character in JSON"
  | '\\' :: [] => .error "Unterminated string in JSON"
  | c :: rest =>
    if c.toNat < 32 then .error "Bad control character in JSON"
    else
      match parseStringBody rest with
      | .ok (content, r) => .ok (c :: content, r)
      | .error err => .error err

def isDigit (c : Char) : Bool := '0' ≤ c && c ≤ '9'

def digitsToNat (ds : List Char) : Nat :=
  ds.foldl (fun acc c => acc * 10 + (c.toNat - '0'.toNat)) 0

/-- Parse a JSON number at the head: `-?(0|[1-9]\d*)(\.\d+)?([eE][+-]?\d+)?`. -/
def parseNumber (cs : List Char) : Except String (ℚ × List Char) :=
  let (neg, r0) :=
    match cs with
    | '-' :: r => (true, r)
    | _ => (false, cs)
  let intDigits := r0.takeWhile isDigit
  let r1 := r0.dropWhile isDigit
  if intDigits = [] then .error "No number after minus sign in JSON"
  else if intDigits.length > 1 ∧ intDigits.head? = some '0' then
    .error "Unexpected number in JSON"
  else
    let (fracDigits, r2) :=
      match r1 with
      | '.' :: r => (r.takeWhile isDigit, r.dropWhile isDigit)
      | _ => ([], r1)
    if r1.head? = some '.' ∧ fracDigits = [] then
      .error "Unterminated fractional number in JSON"
    else
      let parseExp : Except String (Int × List Char) :=
        match r2 with
        | e :: r =>
          if e = 'e' ∨ e = 'E' then
            let (esign, r3) :=
              match r with
              | '+' :: r' => ((1 : Int), r')
              | '-' :: r' => ((-1 : Int), r')
              | _ => ((1 : Int), r)
            let expDigits := r3.takeWhile isDigit
            if expDigits = [] then .error "Exponent part is missing a number in JSON"
            else .ok (esign * (digitsToNat expDigits : Int), r3.dropWhile isDigit)
          else .ok (0, r2)
        | [] => .ok (0, r2)
      match parseExp with
      | .error e => .error e
      | .ok (exp, rest) =>
        let base : Nat := 10 ^ fracDigits.length
        let m : Nat := digitsToNat intDigits * base + digitsToNat fracDigits
        let signed : Int := if neg then -(m : Int) else (m : Int)
        let q : ℚ :=
          match exp with
          | .ofNat e => mkRat (signed * (10 ^ e : Nat)) base
          | .negSucc e => mkRat signed (base * 10 ^ (e + 1))
        .ok (q, rest)

mutual

/-- Parse one JSON value at the head of the input.  `parseJ`,
`parseElems` and `parseMembers` are mutually recursive on a shared fuel
that decreases on every call; `jsonParse` supplies ample fuel. -/
def parseJ : Nat → List Char → Except String (Json × List Char)
  | 0, _ => .error "JSON nesting exceeds parser fuel"
  | f + 1, cs =>
    match skipWs cs with
    | [] => .error "Unexpected end of JSON input"
    | 'n' :: rest =>
      if litPrefix "ull".data rest then .ok (.null, rest.drop 3)
      else .error "Unexpected token n in JSON"
    | 't' :: rest =>
      if litPrefix "rue".data rest then .ok (.bool true, rest.drop 3)
      else .error "Unexpected token t in JSON"
    | 'f' :: rest =>
      if litPrefix "alse".data rest then .ok (.bool false, rest.drop 4)
      else .error "Unexpected token f in JSON"
    | '"' :: rest =>
      match parseStringBody rest with
      | .ok (content, r) => .ok (.str ⟨content⟩, r)
      | .error e => .error e
    | '[' :: rest => parseElems f (skipWs rest) []
    | '\x7b' :: rest => parseMembers f (skipWs rest) []
    | c :: rest =>
      if isDigit c ∨ c = '-' then
        match parseNumber (c :: rest) with
        | .ok (q, r) => .ok (.num q, r)
        | .error e => .error e
      else .error ("Unexpected token " ++ String.mk [c] ++ " in JSON")

/-- Parse array elements after `[` (with leading whitespace consumed). -/
def parseElems : Nat → List Char → List Json → Except String (Json × List Char)
  | 0, _, _ => .error "JSON nesting exceeds parser fuel"
  | _ + 1, ']' :: rest, [] => .ok (.arr [], rest)
  | f + 1, cs, acc =>
    match parseJ f cs with
    | .error e => .error e
    | .ok (v, r) =>
      match skipWs r with
      | ',' :: r2 => parseElems f (skipWs r2) (acc ++ [v])
      | ']' :: r2 => .ok (.arr (acc ++ [v]), r2)
      | _ => .error "Expected comma or closing bracket in JSON array"

/-- Parse object members after `{` (with leading whitespace consumed). -/
def parseMembers : Nat → List Char → List (String × Json) →
    Except String (Json × List Char)
  | 0, _, _ => .error "JSON nesting exceeds parser fuel"
  | _ + 1, '\x7d' :: rest, [] => .ok (.obj [], rest)
  | f + 1, cs, acc =>
    match cs with
    | '"' :: r =>
      match parseStringBody r with
      | .error e => .error e
      | .ok (key, r1) =>
        match skipWs r1 with
        | ':' :: r2 =>
          match parseJ f r2 with
          | .error e => .error e
          | .ok (v, r3) =>
            match skipWs r3 with
            | ',' :: r4 => parseMembers f (skipWs r4) (addField acc ⟨key⟩ v)
            | '\x7d' :: r4 => .ok (.obj (addField acc ⟨key⟩ v), r4)
            | _ => .error "Expected comma or closing brace in JSON object"
        | _ => .error "Expected colon in JSON object"
    | _ => .error "Expected property name in JSON object"

end

/-- Model of `JSON.parse(s)`: one value, possibly surrounded by
whitespace, and nothing else. -/
def jsonParse (s : String) : Except String Json :=
  match parseJ (4 * (s.data.length + 2)) s.data with
  | .error e => .error e
  | .ok (v, rest) =>
    match skipWs rest with
    | [] => .ok v
    | _ => .error "Unexpected non-whitespace character after JSON data"

/-! ### The repair transformations of `cleanAndFixJSON` (lines 252–296)

Each global `String.prototype.replace` is a left-to-right scan: at each
position the pattern is tried; on a match the replacement is emitted and
scanning resumes after the match, otherwise the character is copied and
scanning advances by one.  `scanReplaceGo` captures this scheme; each
matcher returns `(emitted output, remainder after the match)`.  Every
matcher consumes at least one character, so fuel `length + 1` reproduces
the JS behaviour exactly. -/

def scanReplaceGo (step : List Char → Option (List Char × List Char)) :
    Nat → List Char → List Char
  | 0, cs => cs
  | _ + 1, [] => []
  | f + 1, c :: rest =>
    match step (c :: rest) with
    | some (out, r2) => out ++ scanReplaceGo step f r2
    | none => c :: scanReplaceGo step f rest

def runScan (step : List Char → Option (List Char × List Char))
    (s : String) : String :=
  ⟨scanReplaceGo step (s.data.length + 1) s.data⟩

/-- Matcher for `/```json\n|\n```|```/g → ''` (line 252); alternatives are
tried in source order. -/
def fenceStep (cs : List Char) : Option (List Char × List Char) :=
  if litPrefix "```json\n".data cs then some ([], cs.drop 8)
  else if litPrefix "\n```".data cs then some ([], cs.drop 4)
  else if litPrefix "```".data cs then some ([], cs.drop 3)
  else none

/-- Matcher for `/,(\s*[}\]])/g → '$1'` (line 256): drop a comma that is
followed (up to whitespace) by a closing brace or bracket. -/
def trailCommaStep (cs : List Char) : Option (List Char × List Char) :=
  match cs with
  | ',' :: rest =>
    let ws := rest.takeWhile isJsWs
    match rest.dropWhile isJsWs with
    | b :: r2 => if b = '\x7d' ∨ b = ']' then some (ws ++ [b], r2) else none
    | [] => none
  | _ => none

def isWordChar (c : Char) : Bool :=
  ('a' ≤ c && c ≤ 'z') || ('A' ≤ c && c ≤ 'Z') || ('0' ≤ c && c ≤ '9') || c = '_'

/-- Matcher for `/([{,]\s*)([a-zA-Z0-9_]+)(\s*:)/g → '$1"$2"$3'`
(line 257): quote an unquoted property name. -/
def quotePropStep (cs : List Char) : Option (List Char × List Char) :=
  match cs with
  | c :: rest =>
    if c = '\x7b' ∨ c = ',' then
      let ws1 := rest.takeWhile isJsWs
      let r1 := rest.dropWhile isJsWs
      let name := r1.takeWhile isWordChar
      let r2 := r1.dropWhile isWordChar
      if name = [] then none
      else
        let ws2 := r2.takeWhile isJsWs
        match r2.dropWhile isJsWs with
        | ':' :: r3 =>
          some (c :: ws1 ++ '"' :: name ++ '"' :: ws2 ++ [':'], r3)
        | _ => none
    else none
  | [] => none

/-- Matcher for `/:\s*"([^"]*)\s*([,}])/g → ':"$1"$2'` (line 261).  After
`:`, whitespace and an opening quote, the greedy `[^"]*` extends to the
last comma or closing brace inside the quote-free run, where a closing
quote is inserted; the whitespace after the colon is not part of a capture
group and is dropped. -/
def unclosedValStep (cs : List Char) : Option (List Char × List Char) :=
  match cs with
  | ':' :: rest =>
    match rest.dropWhile isJsWs with
    | '"' :: r1 =>
      let run := r1.takeWhile (· ≠ '"')
      let r2 := r1.dropWhile (· ≠ '"')
      match (run.reverse.findIdx? fun c => c = ',' ∨ c = '\x7d') with
      | some revIdx =>
        let j := run.length - 1 - revIdx
        some (':' :: '"' :: run.take j ++ '"' :: [run.get! j],
              run.drop (j + 1) ++ r2)
      | none => none
    | _ => none
  | _ => none

/-- Matcher for `/:\s*"([^"]*)$/g → ':"$1"'` (line 262): close a quote
left dangling at the end of the string. -/
def unclosedEndStep (cs : List Char) : Option (List Char × List Char) :=
  match cs with
  | ':' :: rest =>
    match rest.dropWhile isJsWs with
    | '"' :: r1 =>
      if r1.all (· ≠ '"') then some (':' :: '"' :: r1 ++ ['"'], [])
      else none
    | _ => none
  | _ => none

/-- Matcher for `/\/\/.*$/gm → ''` (line 263): remove from `//` to the end
of the line (the newline itself is kept). -/
def lineCommentStep (cs : List Char) : Option (List Char × List Char) :=
  if litPrefix "//".data cs then
    some ([], cs.dropWhile (· ≠ '\n'))
  else none

/-- Matcher for the lazy `/\/\*[\s\S]*?\*\//g → ''` (line 264): remove up
to and including the first `*/`; with no closing marker there is no match. -/
def blockCommentStep (cs : List Char) : Option (List Char × List Char) :=
  if litPrefix "/*".data cs then
    blockCommentClose (cs.drop 2)
  else none
where
  blockCommentClose : List Char → Option (List Char × List Char)
    | [] => none
    | '*' :: '/' :: r => some ([], r)
    | _ :: r => blockCommentClose r

/-- The basic cleanup of lines 252–264, in source order: strip code
fences, drop trailing commas, quote property names, single quotes to
double quotes, newlines to spaces, collapse whitespace runs, close
dangling value quotes (inner and end-of-string), strip comments. -/
def basicCleanup (s : String) : String :=
  let s1 := runScan fenceStep s
  let s2 := runScan trailCommaStep s1
  let s3 := runScan quotePropStep s2
  let s4 : String := ⟨s3.data.map fun c => if c = '\'' then '"' else c⟩
  let s5 : String := ⟨s4.data.map fun c => if c = '\n' then ' ' else c⟩
  let s6 := runScan
    (fun cs =>
      match cs with
      | c :: rest =>
        if isJsWs c then some ([' '], rest.dropWhile isJsWs) else none
      | [] => none) s5
  let s7 := runScan unclosedValStep s6
  let s8 := runScan unclosedEndStep s7
  let s9 := runScan lineCommentStep s8
  runScan blockCommentStep s9

/-- The pattern head `"\s*:\s*"` shared by line 274's guard and line
276's fix: on a match, returns the consumed characters and the remainder
after the second quote. -/
def quoteColonQuoteAt (cs : List Char) : Option (List Char × List Char) :=
  match cs with
  | '"' :: r0 =>
    let ws1 := r0.takeWhile isJsWs
    match r0.dropWhile isJsWs with
    | ':' :: r1 =>
      let ws2 := r1.takeWhile isJsWs
      match r1.dropWhile isJsWs with
      | '"' :: r2 => some ('"' :: ws1 ++ ':' :: ws2 ++ ['"'], r2)
      | _ => none
    | _ => none
  | _ => none

/-- The guard `cleanedJSON.match(/"\s*:\s*"[^"]*[^"]$/)` (line 274): some
position starts `"`, whitespace, `:`, whitespace, `"`, and the rest of the
string is nonempty and free of double quotes. -/
def hasUnclosedTailFrom : List Char → Bool
  | [] => false
  | c :: cs =>
    (match quoteColonQuoteAt (c :: cs) with
     | some pr => !pr.2.isEmpty && pr.2.all (· ≠ '"')
     | none => false) || hasUnclosedTailFrom cs

def hasUnclosedTail (s : String) : Bool := hasUnclosedTailFrom s.data

/-- Matcher for `/("\s*:\s*"[^"]*[^"])(\s*[,}])/g → '$1"$2'` (line 276):
after `"ws:ws"`, the greedy `[^"]*[^"]` extends to just before the last
comma/brace (at index ≥ 1) of the quote-free run, where a quote is
inserted. -/
def fixTailStep (cs : List Char) : Option (List Char × List Char) :=
  match quoteColonQuoteAt cs with
  | some pr =>
    let run := pr.2.takeWhile (· ≠ '"')
    let rrest := pr.2.dropWhile (· ≠ '"')
    match (run.reverse.findIdx? fun c => c = ',' ∨ c = '\x7d') with
    | some revIdx =>
      let j := run.length - 1 - revIdx
      if j ≥ 1 then
        some (pr.1 ++ run.take j ++ '"' :: [run.get! j],
              run.drop (j + 1) ++ rrest)
      else none
    | none => none
  | none => none

/-- Matcher for `/"([^"]*)"([^"]*)"([^"]*)"/g` with the escaping callback
(lines 280–282): four consecutive quotes collapse into one string with the
two interior quotes escaped. -/
def escInnerStep (cs : List Char) : Option (List Char × List Char) :=
  match cs with
  | '"' :: r0 =>
    let g1 := r0.takeWhile (· ≠ '"')
    match r0.dropWhile (· ≠ '"') with
    | '"' :: r1 =>
      let g2 := r1.takeWhile (· ≠ '"')
      match r1.dropWhile (· ≠ '"') with
      | '"' :: r2 =>
        let g3 := r2.takeWhile (· ≠ '"')
        match r2.dropWhile (· ≠ '"') with
        | '"' :: r3 =>
          some ('"' :: g1 ++ '\\' :: '"' :: g2 ++ '\\' :: '"' :: g3 ++ ['"'], r3)
        | _ => none
      | _ => none
    | _ => none
  | _ => none

/-- Lines 285–296: count unmatched opening braces/brackets and append the
deficit of closing tokens (braces first, then brackets). -/
def balanceBraces (s : String) : String :=
  let openB := (s.data.filter (· = '\x7b')).length
  let closeB := (s.data.filter (· = '\x7d')).length
  let openK := (s.data.filter (· = '[')).length
  let closeK := (s.data.filter (· = ']')).length
  let s1 := s ++ ⟨List.replicate (openB - closeB) '\x7d'⟩
  s1 ++ ⟨List.replicate (openK - closeK) ']'⟩

/-- The aggressive cleanup of lines 272–296, applied to the output of the
basic cleanup. -/
def aggressiveCleanup (s : String) : String :=
  let s1 := if hasUnclosedTail s then runScan fixTailStep s else s
  let s2 := runScan escInnerStep s1
  balanceBraces s2

/-- The degraded last-resort record of lines 306–311: an error marker, the
failure message, a timestamp and a human-readable note.  `now` models
`new Date().toISOString()`. -/
def degradedRecord (msg now : String) : Json :=
  .obj [("error", .str "JSON parsing failed"),
        ("errorMessage", .str msg),
        ("timestamp", .str now),
        ("summary", .str "Error in analysis output format. Please check server logs.")]

def errMsgOf : Except String Json → String
  | .ok _ => ""
  | .error e => e

def isErr : Except String Json → Bool
  | .ok _ => false
  | .error _ => true

/-- Model of `cleanAndFixJSON` (lines 244–315): direct parse, then parse
after basic cleanup, then parse after aggressive cleanup, and finally the
degraded record.  The function is total: no branch throws. -/
def cleanAndFixJSON (now : String) (jsonString : String) : Json :=
  match jsonParse jsonString with
  | .ok v => v
  | .error _ =>
    let cleaned := basicCleanup jsonString
    match jsonParse cleaned with
    | .ok v => v
    | .error _ =>
      let cleaned2 := aggressiveCleanup cleaned
      match jsonParse cleaned2 with
      | .ok v => v
      | .error finalMsg => degradedRecord finalMsg now

/-- The degraded-record marker: the spec's "error marker" is the
`error: "JSON parsing failed"` property. -/
def isDegraded (j : Json) : Bool :=
  match j with
  | .obj fields =>
    fields.any fun kv =>
      decide (kv.1 = "error") &&
        match kv.2 with
        | .str s => decide (s = "JSON parsing failed")
        | _ => false
  | _ => false

/-- The six STRIDE titles required by the spec, in order. -/
def strideTitles : List String :=
  ["Spoofing", "Tampering", "Repudiation", "Information Disclosure",
   "Denial of Service", "Elevation of Privilege"]

def lookupField (fields : List (String × Json)) (k : String) : Option Json :=
  match fields.find? (fun kv => kv.1 = k) with
  | some kv => some kv.2
  | none => none

/-- The six-category invariant claimed by the spec: a `strideCategories`
member with exactly six entries whose titles mention the six STRIDE
categories in order, each carrying a `risks` array. -/
def hasSixStride (j : Json) : Bool :=
  match j with
  | .obj fields =>
    match lookupField fields "strideCategories" with
    | some (.arr cats) =>
      cats.length = 6 &&
        (cats.zip strideTitles).all fun p =>
          match p.1 with
          | .obj cf =>
            (match lookupField cf "title" with
             | some (.str t) => hasSub p.2 t
             | _ => false) &&
            (match lookupField cf "risks" with
             | some (.arr _) => true
             | _ => false)
          | _ => false
    | _ => false
  | _ => false

/-! ### Model of `callOpenAIWithRetry` (lines 18–63)

The axios call's outcome at each attempt is an oracle `resp : Nat →
Attempt α`; the jitter `Math.random() * 1000` at each retry is an oracle
`jit : Nat → ℚ` (a rational in `[0, 1000)`).  The loop
`while (retries <= maxRetries)` runs with `retries` going `0, 1, …`, so
its iteration count is bounded by `maxRetries + 1`, which serves as
structural fuel. -/

/-- An error object as tested at line 36: either an error carrying a
response (with `status` and the body's `error.message`) or one without a
response (network failure etc.). -/
structure ErrResponse where
  status : Nat
  message : String
deriving DecidableEq

/-- Outcome of one axios attempt. -/
inductive Attempt (α : Type) where
  | success (v : α)
  | respFailure (e : ErrResponse)
  | plainFailure (msg : String)
deriving DecidableEq

/-- The branch test `err.response && err.response.status === 429`. -/
def isRateLimit {α : Type} : Attempt α → Bool
  | .respFailure e => e.status = 429
  | _ => false

/-- Final outcome of `callOpenAIWithRetry`: a returned response, a
rethrown error, or the `Failed after N retries` error of line 62. -/
inductive CallResult (α : Type) where
  | success (v : α)
  | thrownResp (e : ErrResponse)
  | thrownPlain (msg : String)
  | exhausted (maxRetries : Nat)
deriving DecidableEq

/-- What the run did: its result, the number of requests issued, and the
sleep durations in ms (in order). -/
structure RunTrace (α : Type) where
  result : CallResult α
  attempts : Nat
  waits : List ℚ
deriving DecidableEq

/-- Parsed `try again in (\d+\.\d+)s` hint: integer digits value,
fractional digits value, number of fractional digits. -/
structure Hint where
  intPart : Nat
  fracPart : Nat
  fracLen : Nat
deriving DecidableEq

/-- Attempt the pattern `try again in (\d+\.\d+)s` at the head position
(line 41; the regex has no `i` flag, so matching is case-sensitive, and
the decimal point with digits on both sides is mandatory). -/
def hintAt (cs : List Char) : Option Hint :=
  if litPrefix "try again in ".data cs then
    let r := cs.drop 13
    let d1 := r.takeWhile isDigit
    match r.dropWhile isDigit with
    | '.' :: r1 =>
      let d2 := r1.takeWhile isDigit
      match r1.dropWhile isDigit with
      | 's' :: _ =>
        if d1 = [] ∨ d2 = [] then none
        else some ⟨digitsToNat d1, digitsToNat d2, d2.length⟩
      | _ => none
    | _ => none
  else none

def hintScan : List Char → Option Hint
  | [] => none
  | c :: cs =>
    match hintAt (c :: cs) with
    | some h => some h
    | none => hintScan cs

/-- `message.match(/try again in (\d+\.\d+)s/)` (line 41): leftmost match. -/
def parseRetryHint (msg : String) : Option Hint := hintScan msg.data

/-- The exact hinted duration in milliseconds, as a rational:
`parseFloat(match[1]) * 1000` (`parseFloat` modelled exactly). -/
def Hint.exactMs (h : Hint) : ℚ :=
  (h.intPart : ℚ) * 1000 + mkRat (h.fracPart * 1000) (10 ^ h.fracLen)

/-- `Math.ceil(parseFloat(match[1]) * 1000) + 1000` (line 43), computed in
integer arithmetic: the ceiling of `d1.d2 * 1000` is
`d1 * 1000 + ⌈d2 * 1000 / 10^k⌉`. -/
def Hint.ceilMsPlusBuffer (h : Hint) : Nat :=
  h.intPart * 1000 +
    (h.fracPart * 1000 + (10 ^ h.fracLen - 1)) / 10 ^ h.fracLen + 1000

/-- `waitTime` of lines 38–45: the parsed hint (converted to ms, ceiled,
plus the 1s buffer) when the message matches, else the default 30000 ms —
with no buffer added in the default case. -/
def waitTimeFor (msg : String) : Nat :=
  match parseRetryHint msg with
  | some h => h.ceilMsPlusBuffer
  | none => 30000

/-- `actualWaitTime = waitTime + retries * 5000 + jitter` (line 49). -/
def actualWaitTime (msg : String) (retries : Nat) (jitter : ℚ) : ℚ :=
  (waitTimeFor msg : ℚ) + (retries : ℚ) * 5000 + jitter

/-- The retry loop (lines 21–59), with `k` the current value of `retries`
and fuel `maxRetries + 1 - k`. -/
def retryGo {α : Type} (resp : Nat → Attempt α) (jit : Nat → ℚ)
    (maxRetries : Nat) : Nat → Nat → List ℚ → RunTrace α
  | 0, k, ws => ⟨.exhausted maxRetries, k, ws⟩
  | f + 1, k, ws =>
    match resp k with
    | .success v => ⟨.success v, k + 1, ws⟩
    | .plainFailure msg => ⟨.thrownPlain msg, k + 1, ws⟩
    | .respFailure e =>
      if e.status = 429 then
        retryGo resp jit maxRetries f (k + 1)
          (ws ++ [actualWaitTime e.message k (jit k)])
      else ⟨.thrownResp e, k + 1, ws⟩

/-- Model of `callOpenAIWithRetry(data, maxRetries = 5)` (the source's
default for `maxRetries` is 5; here it is always passed explicitly). -/
def callOpenAIWithRetry {α : Type} (resp : Nat → Attempt α)
    (jit : Nat → ℚ) (maxRetries : Nat) : RunTrace α :=
  retryGo resp jit maxRetries (maxRetries + 1) 0 []

/-! ### Model of the reduction stage of `/api/analyze-security`
(lines 443–588)

With more than one per-chunk result, the handler splits `chunkResults`
into batches of at most 10 by the slice loop of lines 449–451, issues one
remote call per batch, and then unconditionally issues the final
summarization call of line 538.  With exactly one result it issues no
further call.  The call counts are a pure function of the result list. -/

/-- The slice loop `for (i = 0; i < n; i += batchSize)` of lines 449–451,
with fuel one unit per batch. -/
def sliceBatchesGo {α : Type} (batchSize : Nat) : Nat → List α → List (List α)
  | 0, _ => []
  | _ + 1, [] => []
  | f + 1, l => l.take batchSize :: sliceBatchesGo batchSize f (l.drop batchSize)

/-- `batches` as built at lines 446–451 (`batchSize = 10`). -/
def sliceBatches {α : Type} (l : List α) : List (List α) :=
  sliceBatchesGo 10 l.length l

/-- Number of batch-level summarization calls the handler issues for a
given `chunkResults` list (the loop of lines 458–535 runs once per batch;
the batching branch is taken only when more than one result exists). -/
def summaryBatchCalls {α : Type} (chunkResults : List α) : Nat :=
  if 1 < chunkResults.length then (sliceBatches chunkResults).length else 0

/-- Number of final consolidation calls the handler issues: the call of
line 538 is made unconditionally inside the more-than-one-result branch,
regardless of how many batches existed. -/
def summaryFinalCalls {α : Type} (chunkResults : List α) : Nat :=
  if 1 < chunkResults.length then 1 else 0

/-! ## Helper lemmas -/

/-- Cancellation of a common prefix of `String.append`. -/
theorem string_append_left_cancel {p x y : String} (h : p ++ x = p ++ y) :
    x = y := by
  have hd : p.data ++ x.data = p.data ++ y.data := congrArg String.data h
  have h2 := List.append_cancel_left hd
  cases x; cases y; exact congrArg String.mk h2

/-- An all-rate-limited run of the retry loop: starting at `retries = k`
with fuel `f`, the loop performs `f` further attempts, sleeps the
documented duration after each, and ends in the exhausted state. -/
theorem retryGo_all429 {α : Type} (resp : Nat → Attempt α) (jit : Nat → ℚ)
    (m : Nat) (e : Nat → ErrResponse)
    (hr : ∀ i, resp i = .respFailure (e i)) (hs : ∀ i, (e i).status = 429) :
    ∀ (f k : Nat) (ws : List ℚ),
      retryGo resp jit m f k ws =
        ⟨.exhausted m, k + f,
         ws ++ (List.range f).map
           (fun i => actualWaitTime (e (k + i)).message (k + i) (jit (k + i)))⟩ := by
  intro f
  induction f with
  | zero => intro k ws; simp [retryGo]
  | succ f ih =>
    intro k ws
    rw [retryGo.eq_def]
    simp only [hr k, hs k, if_pos]
    rw [ih (k + 1)]
    have harg : ∀ i : Nat, k + 1 + i = k + i + 1 := fun i => by omega
    congr 1
    · omega
    · rw [List.range_succ_eq_map]
      simp only [List.map_cons, List.map_map, Function.comp_def, harg,
        List.append_assoc, List.singleton_append, Nat.add_zero,
        Nat.succ_eq_add_one, ← Nat.add_assoc]

/-- Lengths: the slice loop of lines 449–451 produces `⌈n / 10⌉` batches. -/
theorem sliceBatchesGo_length_ten {α : Type} :
    ∀ (f : Nat) (l : List α), l.length ≤ f →
      (sliceBatchesGo 10 f l).length = (l.length + 9) / 10 := by
  intro f
  induction f with
  | zero =>
    intro l hl
    have : l = [] := List.eq_nil_of_length_eq_zero (Nat.le_zero.mp hl)
    subst this; simp [sliceBatchesGo]
  | succ f ih =>
    intro l hl
    cases l with
    | nil => simp [sliceBatchesGo]
    | cons x xs =>
      have hlen : (List.drop 10 (x :: xs)).length ≤ f := by
        simp only [List.length_drop, List.length_cons]
        simp only [List.length_cons] at hl
        omega
      have hred : sliceBatchesGo 10 (f + 1) (x :: xs) =
          (x :: xs).take 10 :: sliceBatchesGo 10 f ((x :: xs).drop 10) := rfl
      rw [hred, List.length_cons, ih _ hlen]
      simp only [List.length_drop, List.length_cons]
      omega

/-! ## The claims -/

/-- C9: for every input string that already parses as valid structured
data (strict JSON), `cleanAndFixJSON` returns the logical record
unchanged — the direct parse, with no repair transformation applied. -/
theorem cleanAndFixJSON_roundtrip (now s : String) (v : Json)
    (h : jsonParse s = .ok v) : cleanAndFixJSON now s = v := by
  unfold cleanAndFixJSON
  rw [h]

theorem cleanAndFixJSON_roundtrip_witness :
    jsonParse "\x7b\"summary\":\"x\"\x7d" = .ok (.obj [("summary", Json.str "x")]) ∧
    cleanAndFixJSON "2024-01-01T00:00:00.000Z" "\x7b\"summary\":\"x\"\x7d" =
      .obj [("summary", Json.str "x")] :=
  ⟨rfl, cleanAndFixJSON_roundtrip "2024-01-01T00:00:00.000Z" _ _ rfl⟩

/-- C3: `cleanAndFixJSON` never raises: when the direct parse, the parse
after basic cleanup and the parse after aggressive cleanup all fail, it
returns the degraded record carrying the error marker, the final failure
message, the timestamp and the human-readable note (lines 306–311) rather
than throwing. -/
theorem cleanAndFixJSON_degrades_on_total_failure (now s : String)
    (h1 : isErr (jsonParse s) = true)
    (h2 : isErr (jsonParse (basicCleanup s)) = true)
    (h3 : isErr (jsonParse (aggressiveCleanup (basicCleanup s))) = true) :
    cleanAndFixJSON now s =
      degradedRecord (errMsgOf (jsonParse (aggressiveCleanup (basicCleanup s)))) now := by
  unfold cleanAndFixJSON
  cases hp1 : jsonParse s with
  | ok v => rw [hp1] at h1; simp [isErr] at h1
  | error m1 =>
    cases hp2 : jsonParse (basicCleanup s) with
    | ok v => rw [hp2] at h2; simp [isErr] at h2
    | error m2 =>
      cases hp3 : jsonParse (aggressiveCleanup (basicCleanup s)) with
      | ok v => rw [hp3] at h3; simp [isErr] at h3
      | error m3 => simp [hp2, hp3, errMsgOf]

theorem cleanAndFixJSON_degrades_on_total_failure_witness :
    isErr (jsonParse "garbage") = true ∧
    isErr (jsonParse (basicCleanup "garbage")) = true ∧
    isErr (jsonParse (aggressiveCleanup (basicCleanup "garbage"))) = true ∧
    cleanAndFixJSON "2024-01-01T00:00:00.000Z" "garbage" =
      degradedRecord
        (errMsgOf (jsonParse (aggressiveCleanup (basicCleanup "garbage"))))
        "2024-01-01T00:00:00.000Z" :=
  ⟨by decide, by decide, by decide,
   cleanAndFixJSON_degrades_on_total_failure "2024-01-01T00:00:00.000Z"
     "garbage" (by decide) (by decide) (by decide)⟩

/-- C8: on any remote error that is not a rate-limit rejection (an error
response with status other than 429, e.g. auth failure, malformed request,
server fault), `callOpenAIWithRetry` fails immediately: exactly one
attempt is made, no sleep occurs, and the original error object is
rethrown unchanged. -/
theorem callOpenAIWithRetry_nonratelimit_immediate {α : Type}
    (resp : Nat → Attempt α) (jit : Nat → ℚ) (m : Nat) (e : ErrResponse)
    (h0 : resp 0 = .respFailure e) (hne : e.status ≠ 429) :
    callOpenAIWithRetry resp jit m = ⟨.thrownResp e, 1, []⟩ := by
  unfold callOpenAIWithRetry
  rw [retryGo.eq_def]
  simp [h0, hne]

theorem callOpenAIWithRetry_nonratelimit_immediate_witness :
    (fun _ => Attempt.respFailure (α := Nat) ⟨401, "Unauthorized"⟩) 0 =
      .respFailure ⟨401, "Unauthorized"⟩ ∧
    (401 : Nat) ≠ 429 ∧
    callOpenAIWithRetry (fun _ => Attempt.respFailure (α := Nat) ⟨401, "Unauthorized"⟩)
      (fun _ => 0) 5 = ⟨.thrownResp ⟨401, "Unauthorized"⟩, 1, []⟩ :=
  ⟨rfl, by decide,
   callOpenAIWithRetry_nonratelimit_immediate _ _ 5 ⟨401, "Unauthorized"⟩ rfl
     (by decide)⟩

/-- C4 (counterexample): with `maxRetries = 2` and every attempt rejected
with status 429, the loop issues three attempts — hence suffers three
rate-limit rejections, not two — before giving up, refuting "fails with
ExhaustedRetries after maxRetries rate-limit rejections". -/
theorem callOpenAIWithRetry_three_rejections_at_two :
    (callOpenAIWithRetry
      (fun _ => Attempt.respFailure (α := Nat) ⟨429, "Rate limit reached"⟩)
      (fun _ => 0) 2).attempts = 3 ∧
    (callOpenAIWithRetry
      (fun _ => Attempt.respFailure (α := Nat) ⟨429, "Rate limit reached"⟩)
      (fun _ => 0) 2).result = .exhausted 2 ∧
    (3 : Nat) ≠ 2 := by
  refine ⟨rfl, rfl, by decide⟩

/-- C4 (amended): when every issued request is rejected with a rate-limit
error, `callOpenAIWithRetry` ends in the `Failed after maxRetries retries`
state after exactly `maxRetries + 1` attempts — that is, after
`maxRetries + 1` rate-limit rejections (one per attempt), not after
`maxRetries` of them. -/
theorem callOpenAIWithRetry_exhausts_after_all_attempts {α : Type}
    (resp : Nat → Attempt α) (jit : Nat → ℚ) (m : Nat) (e : Nat → ErrResponse)
    (hr : ∀ i, resp i = .respFailure (e i)) (hs : ∀ i, (e i).status = 429) :
    (callOpenAIWithRetry resp jit m).result = .exhausted m ∧
    (callOpenAIWithRetry resp jit m).attempts = m + 1 := by
  unfold callOpenAIWithRetry
  rw [retryGo_all429 resp jit m e hr hs (m + 1) 0 []]
  refine ⟨rfl, ?_⟩
  show 0 + (m + 1) = m + 1
  omega

theorem callOpenAIWithRetry_exhausts_after_all_attempts_witness :
    (∀ i : Nat,
      (fun _ => Attempt.respFailure (α := Nat) ⟨429, "Rate limit reached"⟩) i =
        .respFailure ((fun _ => (⟨429, "Rate limit reached"⟩ : ErrResponse)) i)) ∧
    (∀ i : Nat, ((fun _ => (⟨429, "Rate limit reached"⟩ : ErrResponse)) i).status = 429) ∧
    (callOpenAIWithRetry
      (fun _ => Attempt.respFailure (α := Nat) ⟨429, "Rate limit reached"⟩)
      (fun _ => 0) 4).result = .exhausted 4 ∧
    (callOpenAIWithRetry
      (fun _ => Attempt.respFailure (α := Nat) ⟨429, "Rate limit reached"⟩)
      (fun _ => 0) 4).attempts = 5 :=
  ⟨fun _ => rfl, fun _ => rfl,
   (callOpenAIWithRetry_exhausts_after_all_attempts _ _ 4 _
      (fun _ => rfl) (fun _ => rfl)).1,
   (callOpenAIWithRetry_exhausts_after_all_attempts _ _ 4 _
      (fun _ => rfl) (fun _ => rfl)).2⟩

/-- C5 (counterexample): a rate-limit rejection whose error body carries
no parseable "try again in N seconds" hint at retry count 0 with zero
jitter sleeps exactly 30000 ms — the default base with no 1-second buffer
added — refuting the claimed `base + 1s buffer + …` formula, which would
require 31000 ms. -/
theorem callOpenAIWithRetry_default_wait_lacks_buffer :
    (callOpenAIWithRetry
      (fun _ => Attempt.respFailure (α := Nat) ⟨429, "Rate limit reached for requests"⟩)
      (fun _ => 0) 0).waits = [(30000 : ℚ)] ∧
    (30000 : ℚ) ≠ 30000 + 1000 := by
  constructor
  · have h := retryGo_all429
      (fun _ => Attempt.respFailure (α := Nat) ⟨429, "Rate limit reached for requests"⟩)
      (fun _ => 0) 0 (fun _ => ⟨429, "Rate limit reached for requests"⟩)
      (fun _ => rfl) (fun _ => rfl) 1 0 []
    rw [callOpenAIWithRetry, h]
    have hw : waitTimeFor "Rate limit reached for requests" = 30000 := rfl
    have hrange : List.range 1 = [0] := rfl
    norm_num [actualWaitTime, hw, hrange]
  · norm_num

/-- C5 (amended): on an all-rate-limited run, the duration slept at retry
count `r` is exactly `waitTime + r * 5000 + jitter` ms, where `waitTime`
is `⌈hint · 1000⌉ + 1000` when the error message carries a
`try again in N.Ns` hint and `30000` with no buffer otherwise; whenever
the hint is present (and the jitter is nonnegative), the slept duration is
at least the exact hinted duration plus the fixed 1-second buffer. -/
theorem callOpenAIWithRetry_wait_formula {α : Type}
    (resp : Nat → Attempt α) (jit : Nat → ℚ) (m : Nat) (e : Nat → ErrResponse)
    (hr : ∀ i, resp i = .respFailure (e i)) (hs : ∀ i, (e i).status = 429) :
    (callOpenAIWithRetry resp jit m).waits =
      (List.range (m + 1)).map
        (fun r => actualWaitTime (e r).message r (jit r)) ∧
    ∀ (r : Nat) (h : Hint), parseRetryHint (e r).message = some h →
      0 ≤ jit r →
      Hint.exactMs h + 1000 ≤ actualWaitTime (e r).message r (jit r) := by
  constructor
  · unfold callOpenAIWithRetry
    rw [retryGo_all429 resp jit m e hr hs (m + 1) 0 []]
    simp
  · intro r h hparse hjit
    unfold actualWaitTime waitTimeFor
    rw [hparse]
    have hceil : Hint.exactMs h ≤ (Hint.ceilMsPlusBuffer h : ℚ) - 1000 := by
      unfold Hint.exactMs Hint.ceilMsPlusBuffer
      push_cast
      have hb : (0 : Nat) < 10 ^ h.fracLen := Nat.pos_pow_of_pos _ (by norm_num)
      have hnat : h.fracPart * 1000 ≤
          (h.fracPart * 1000 + (10 ^ h.fracLen - 1)) / 10 ^ h.fracLen *
            10 ^ h.fracLen := by
        rcases Nat.eq_zero_or_pos (h.fracPart * 1000) with hz | hpos
        · simp [hz]
        · have h1 : h.fracPart * 1000 - 1 <
              ((h.fracPart * 1000 - 1) / 10 ^ h.fracLen + 1) * 10 ^ h.fracLen := by
            rw [← Nat.div_lt_iff_lt_mul hb]
            omega
          have h2 : (h.fracPart * 1000 - 1) / 10 ^ h.fracLen + 1 =
              (h.fracPart * 1000 + (10 ^ h.fracLen - 1)) / 10 ^ h.fracLen := by
            have h3 : h.fracPart * 1000 + (10 ^ h.fracLen - 1) =
                (h.fracPart * 1000 - 1) + 10 ^ h.fracLen := by omega
            rw [h3, Nat.add_div_right _ hb]
          rw [h2] at h1
          omega
      have hq : (mkRat (h.fracPart * 1000) (10 ^ h.fracLen) : ℚ) ≤
          ((h.fracPart * 1000 + (10 ^ h.fracLen - 1)) / 10 ^ h.fracLen : Nat) := by
        rw [Rat.mkRat_eq_div]
        rw [div_le_iff₀ (by positivity)]
        calc ((h.fracPart * 1000 : Nat) : ℚ)
            ≤ (((h.fracPart * 1000 + (10 ^ h.fracLen - 1)) / 10 ^ h.fracLen *
                10 ^ h.fracLen : Nat) : ℚ) := by exact_mod_cast hnat
          _ = _ := by push_cast; ring
      push_cast at hq ⊢
      linarith
    have hlin : (0 : ℚ) ≤ (r : ℚ) * 5000 := by positivity
    linarith

theorem callOpenAIWithRetry_wait_formula_witness :
    parseRetryHint "Please try again in 2.5s." = some ⟨2, 5, 1⟩ ∧
    (0 : ℚ) ≤ 0 ∧
    (callOpenAIWithRetry
      (fun _ => Attempt.respFailure (α := Nat) ⟨429, "Please try again in 2.5s."⟩)
      (fun _ => 0) 0).waits =
      (List.range 1).map
        (fun r => actualWaitTime "Please try again in 2.5s." r 0) ∧
    Hint.exactMs ⟨2, 5, 1⟩ + 1000 ≤ actualWaitTime "Please try again in 2.5s." 0 0 :=
  ⟨by decide, le_refl 0,
   (callOpenAIWithRetry_wait_formula _ _ 0
      (fun _ => ⟨429, "Please try again in 2.5s."⟩)
      (fun _ => rfl) (fun _ => rfl)).1,
   (callOpenAIWithRetry_wait_formula
      (fun _ => Attempt.respFailure (α := Nat) ⟨429, "Please try again in 2.5s."⟩)
      (fun _ => 0) 0 (fun _ => ⟨429, "Please try again in 2.5s."⟩)
      (fun _ => rfl) (fun _ => rfl)).2 0 ⟨2, 5, 1⟩ (by decide) (le_refl 0)⟩

/-- C2 (counterexample): two partial reports form a single batch
(`sliceBatches` yields one batch), yet the handler still issues the final
consolidation call of line 538 — one batch call plus one final call —
refuting "when only one batch existed, … no further consolidation call is
made". -/
theorem summary_single_batch_still_consolidates :
    summaryBatchCalls ["report1", "report2"] = 1 ∧
    summaryFinalCalls ["report1", "report2"] = 1 ∧
    (1 : Nat) ≠ 0 := by
  refine ⟨rfl, rfl, by decide⟩

/-- C2 (amended): whenever more than one partial report exists, the
reduction stage issues exactly `⌈len / 10⌉` batch-level calls and always
exactly one final consolidation call — even when only one batch existed —
because the final summarization of line 538 is unconditional inside the
more-than-one-result branch. -/
theorem summary_call_counts {α : Type} (l : List α) (h : 1 < l.length) :
    summaryBatchCalls l = (l.length + 9) / 10 ∧ summaryFinalCalls l = 1 := by
  unfold summaryBatchCalls summaryFinalCalls sliceBatches
  rw [if_pos h, if_pos h, sliceBatchesGo_length_ten l.length l (le_refl _)]
  exact ⟨rfl, rfl⟩

theorem summary_call_counts_witness :
    1 < (List.replicate 12 "report").length ∧
    summaryBatchCalls (List.replicate 12 "report") = 2 ∧
    summaryFinalCalls (List.replicate 12 "report") = 1 :=
  ⟨by decide,
   ((summary_call_counts (List.replicate 12 "report") (by decide)).1).trans (by decide),
   (summary_call_counts (List.replicate 12 "report") (by decide)).2⟩

/-- C7 (counterexample): a response text that parses directly yields a
non-degraded report with no `strideCategories` at all — the parser
performs no six-category validation — refuting "every non-degraded report
… contains exactly six strideCategories entries". -/
theorem recover_nondegraded_without_six_categories :
    isDegraded (cleanAndFixJSON "2024-01-01T00:00:00.000Z" "\x7b\"summary\":\"ok\"\x7d") = false ∧
    hasSixStride (cleanAndFixJSON "2024-01-01T00:00:00.000Z" "\x7b\"summary\":\"ok\"\x7d") = false :=
  ⟨by decide, by decide⟩

/-- C7 (amended): the Output Recovery Parser applies no six-category
validation: any successfully parsed value is returned unchanged, so a
non-degraded report carries exactly the categories present in the raw
text — the six-entry structure is requested of the remote service by the
prompts but not enforced by the code, and can be absent from a
non-degraded report. -/
theorem recover_applies_no_stride_validation (now s : String) (v : Json)
    (h : jsonParse s = .ok v) (hnd : isDegraded v = false)
    (hns : hasSixStride v = false) :
    cleanAndFixJSON now s = v ∧
    isDegraded (cleanAndFixJSON now s) = false ∧
    hasSixStride (cleanAndFixJSON now s) = false := by
  have he : cleanAndFixJSON now s = v := by
    unfold cleanAndFixJSON
    rw [h]
  exact ⟨he, he ▸ hnd, he ▸ hns⟩

theorem recover_applies_no_stride_validation_witness :
    jsonParse "\x7b\"summary\":\"w\"\x7d" = .ok (.obj [("summary", Json.str "w")]) ∧
    isDegraded (.obj [("summary", Json.str "w")]) = false ∧
    hasSixStride (.obj [("summary", Json.str "w")]) = false ∧
    cleanAndFixJSON "2024-01-01T00:00:00.000Z" "\x7b\"summary\":\"w\"\x7d" =
      .obj [("summary", Json.str "w")] :=
  ⟨rfl, by decide, by decide,
   (recover_applies_no_stride_validation "2024-01-01T00:00:00.000Z"
      "\x7b\"summary\":\"w\"\x7d" (.obj [("summary", Json.str "w")])
      rfl (by decide) (by decide)).1⟩

/-- C1 (counterexample): on the empty input the paragraph split yields one
(empty) paragraph, the structural pass classifies it and then discards it
at the length filter, and — since the pass did not throw — no
sliding-window fallback is taken: the result is the empty list, refuting
"the result is non-empty (containing at least the whole input) for any
input". -/
theorem componentBasedChunking_empty_input_no_segments :
    componentBasedChunking "" = [] ∧ splitParas "" = [""] :=
  ⟨by decide, by decide⟩

/-- C1 (amended): the structural pass consists solely of non-throwing
string operations, so `componentBasedChunking` never fails and the
sliding-window fallback (reserved for a thrown exception) is never taken;
however a yield of nothing usable does not trigger the fallback: the
result is empty exactly when every classified chunk has empty content or
trimmed length at most 10 — so for such inputs (e.g. the empty text) zero
segments are returned. -/
theorem componentBasedChunking_eq_nil_iff (text : String) :
    componentBasedChunking text = [] ↔
      ∀ c ∈ allChunksOf text,
        c.content = "" ∨ (strTrim c.content).length ≤ 10 := by
  unfold componentBasedChunking
  rw [List.map_eq_nil_iff, List.filter_eq_nil_iff]
  refine forall_congr' fun c => forall_congr' fun _ => ?_
  simp only [keepChunk, Bool.and_eq_true, Bool.not_eq_true', decide_eq_true_eq,
    decide_eq_false_iff_not, not_and_or, not_not, not_lt]

/-- Equal tagged outputs have equal content: the three tag prefixes are
pairwise distinguishable at a character position, and a shared prefix
cancels. -/
theorem tagChunk_content_inj {c c' : Chunk} (h : tagChunk c = tagChunk c') :
    c.content = c'.content := by
  obtain ⟨t, x⟩ := c
  obtain ⟨t', y⟩ := c'
  cases t <;> cases t' <;>
    simp only [tagChunk, ChunkType.tag] at h <;>
    first
    | exact string_append_left_cancel h
    | exact absurd (show (some 'C' : Option Char) = some 'M' from
        congrArg (fun s => s.data.get? 1) h) (by decide)
    | exact absurd (show (some 'M' : Option Char) = some 'C' from
        congrArg (fun s => s.data.get? 1) h) (by decide)
    | exact absurd (show (some 'M' : Option Char) = some 'N' from
        congrArg (fun s => s.data.get? 3) h) (by decide)
    | exact absurd (show (some 'N' : Option Char) = some 'M' from
        congrArg (fun s => s.data.get? 3) h) (by decide)
    | exact absurd (show (some ']' : Option Char) = some '_' from
        congrArg (fun s => s.data.get? 11) h) (by decide)
    | exact absurd (show (some '_' : Option Char) = some ']' from
        congrArg (fun s => s.data.get? 11) h) (by decide)

/-- C6 (counterexample): the input "Component:" classifies into a single
component chunk whose trimmed content has length exactly 10, and the
filter `trim().length > 10` discards it — refuting "every paragraph whose
trimmed content has length 10 or more is kept". -/
theorem ten_char_paragraph_discarded :
    allChunksOf "Component:" = [⟨.component, "Component:"⟩] ∧
    (strTrim "Component:").length = 10 ∧
    componentBasedChunking "Component:" = [] :=
  ⟨by decide, by decide, by decide⟩

/-- C6 (amended): a classified chunk is kept in the output exactly when
its content is nonempty and its trimmed content length is strictly
greater than 10 — chunks of trimmed length exactly 10 are discarded along
with shorter ones. -/
theorem chunk_kept_iff_long_enough (text : String) (c : Chunk)
    (hc : c ∈ allChunksOf text) :
    tagChunk c ∈ componentBasedChunking text ↔
      (¬ c.content = "" ∧ 10 < (strTrim c.content).length) := by
  unfold componentBasedChunking
  constructor
  · intro hmem
    obtain ⟨c', hc'f, htag⟩ := List.mem_map.mp hmem
    have hkeep := (List.mem_filter.mp hc'f).2
    have hcontent := tagChunk_content_inj htag
    simp only [keepChunk, Bool.and_eq_true, Bool.not_eq_true',
      decide_eq_true_eq, decide_eq_false_iff_not] at hkeep
    rw [hcontent] at hkeep
    exact hkeep
  · intro hprop
    apply List.mem_map_of_mem
    rw [List.mem_filter]
    refine ⟨hc, ?_⟩
    simp only [keepChunk, Bool.and_eq_true, Bool.not_eq_true',
      decide_eq_true_eq, decide_eq_false_iff_not]
    exact hprop

theorem chunk_kept_iff_long_enough_witness :
    (⟨.component, "Component: AuthService"⟩ : Chunk) ∈
      allChunksOf "Component: AuthService" ∧
    (¬ ("Component: AuthService" : String) = "" ∧
      10 < (strTrim "Component: AuthService").length) ∧
    tagChunk ⟨.component, "Component: AuthService"⟩ ∈
      componentBasedChunking "Component: AuthService" :=
  ⟨by decide, ⟨by decide, by decide⟩,
   (chunk_kept_iff_long_enough "Component: AuthService"
      ⟨.component, "Component: AuthService"⟩ (by decide)).mpr
     ⟨by decide, by decide⟩⟩

/-! ## Invariants of the classification and grouping passes (for C10) -/

/-- Every chunk accumulated by the classification loop is typed according
to the array it sits in and carries the trimmed content of one of the
processed paragraphs. -/
def ClassInv (ps : List String) (st : ClassState) : Prop :=
  (∀ c ∈ st.comps, c.type = .component ∧ ∃ p ∈ ps, c.content = strTrim p) ∧
  (∀ c ∈ st.metas, c.type = .metadata ∧ ∃ p ∈ ps, c.content = strTrim p) ∧
  (∀ c ∈ st.conns, c.type = .connection ∧ ∃ p ∈ ps, c.content = strTrim p)

theorem classInv_mono (qs : List String) {ps : List String} {st : ClassState}
    (h : ClassInv ps st) : ClassInv (ps ++ qs) st := by
  obtain ⟨h1, h2, h3⟩ := h
  refine ⟨?_, ?_, ?_⟩ <;> intro c hc
  · obtain ⟨ht, p, hp, he⟩ := h1 c hc
    exact ⟨ht, p, List.mem_append.mpr (Or.inl hp), he⟩
  · obtain ⟨ht, p, hp, he⟩ := h2 c hc
    exact ⟨ht, p, List.mem_append.mpr (Or.inl hp), he⟩
  · obtain ⟨ht, p, hp, he⟩ := h3 c hc
    exact ⟨ht, p, List.mem_append.mpr (Or.inl hp), he⟩

theorem inv_forall_push {l : List Chunk} {t : ChunkType} {ps : List String}
    {q : String}
    (h : ∀ c ∈ l, c.type = t ∧ ∃ p ∈ ps, c.content = strTrim p)
    (hq : q ∈ ps) :
    ∀ c ∈ l ++ [⟨t, strTrim q⟩], c.type = t ∧ ∃ p ∈ ps, c.content = strTrim p := by
  intro c hcmem
  rcases List.mem_append.mp hcmem with hl | hr
  · exact h c hl
  · have : c = ⟨t, strTrim q⟩ := by simpa using hr
    subst this
    exact ⟨rfl, q, hq, rfl⟩

theorem classifyStep_inv {ps : List String} {st : ClassState}
    (h : ClassInv ps st) (q : String) :
    ClassInv (ps ++ [q]) (classifyStep st q) := by
  have h' := classInv_mono [q] h
  have hq : q ∈ ps ++ [q] := List.mem_append.mpr (Or.inr (by simp))
  unfold classifyStep
  repeat' split
  all_goals
    first
    | exact ⟨inv_forall_push h'.1 hq, h'.2.1, h'.2.2⟩
    | exact ⟨h'.1, h'.2.1, inv_forall_push h'.2.2 hq⟩
    | exact ⟨h'.1, inv_forall_push h'.2.1 hq, h'.2.2⟩

theorem foldl_classify_inv :
    ∀ (qs ps : List String) (st : ClassState),
      ClassInv ps st → ClassInv (ps ++ qs) (qs.foldl classifyStep st) := by
  intro qs
  induction qs with
  | nil => intro ps st h; simpa using h
  | cons q qs ih =>
    intro ps st h
    have h3 := ih (ps ++ [q]) (classifyStep st q) (classifyStep_inv h q)
    rw [List.append_assoc] at h3
    simpa using h3

theorem classifyParagraphs_inv (ps : List String) :
    ClassInv ps (classifyParagraphs ps) := by
  have h0 : ClassInv [] (⟨[], [], [], 0, 0, 0⟩ : ClassState) :=
    ⟨fun c hc => absurd hc (List.not_mem_nil c),
     fun c hc => absurd hc (List.not_mem_nil c),
     fun c hc => absurd hc (List.not_mem_nil c)⟩
  have h := foldl_classify_inv ps [] _ h0
  simpa [classifyParagraphs] using h

/-- Every entry of the grouped-connections dictionary holds a nonempty
list of chunks drawn from the pool of connection chunks. -/
def GroupInv (pool : List Chunk) (g : GroupMap) : Prop :=
  ∀ kv ∈ g, kv.2 ≠ [] ∧ ∀ c ∈ kv.2, c ∈ pool

theorem pushAssoc_inv {pool : List Chunk} {k : String} {c : Chunk} :
    ∀ {g : GroupMap}, GroupInv pool g → c ∈ pool →
      GroupInv pool (pushAssoc g k c) := by
  intro g
  induction g with
  | nil =>
    intro _ hc kv hkv
    have : kv = (k, [c]) := by simpa [pushAssoc] using hkv
    subst this
    refine ⟨by simp, ?_⟩
    intro d hd
    have : d = c := by simpa using hd
    subst this; exact hc
  | cons hd tl ih =>
    intro h hc kv hkv
    obtain ⟨k', l⟩ := hd
    by_cases hk : k' = k
    · rw [show pushAssoc ((k', l) :: tl) k c = (k', l ++ [c]) :: tl by
        simp [pushAssoc, hk]] at hkv
      rcases List.mem_cons.mp hkv with hkv | hkv
      · subst hkv
        refine ⟨by simp, ?_⟩
        intro d hdm
        rcases List.mem_append.mp hdm with h1 | h1
        · exact (h (k', l) (by simp)).2 d h1
        · have : d = c := by simpa using h1
          subst this; exact hc
      · exact h kv (List.mem_cons_of_mem _ hkv)
    · rw [show pushAssoc ((k', l) :: tl) k c = (k', l) :: pushAssoc tl k c by
        simp [pushAssoc, hk]] at hkv
      rcases List.mem_cons.mp hkv with hkv | hkv
      · subst hkv
        exact h (k', l) (by simp)
      · exact ih (fun kv' hkv' => h kv' (List.mem_cons_of_mem _ hkv')) hc kv hkv

theorem setAssoc_inv {pool : List Chunk} {k : String} {v : List Chunk} :
    ∀ {g : GroupMap}, GroupInv pool g → v ≠ [] → (∀ c ∈ v, c ∈ pool) →
      GroupInv pool (setAssoc g k v) := by
  intro g
  induction g with
  | nil =>
    intro _ hv hvp kv hkv
    have : kv = (k, v) := by simpa [setAssoc] using hkv
    subst this
    exact ⟨hv, hvp⟩
  | cons hd tl ih =>
    intro h hv hvp kv hkv
    obtain ⟨k', l⟩ := hd
    by_cases hk : k' = k
    · rw [show setAssoc ((k', l) :: tl) k v = (k', v) :: tl by
        simp [setAssoc, hk]] at hkv
      rcases List.mem_cons.mp hkv with hkv | hkv
      · subst hkv; exact ⟨hv, hvp⟩
      · exact h kv (List.mem_cons_of_mem _ hkv)
    · rw [show setAssoc ((k', l) :: tl) k v = (k', l) :: setAssoc tl k v by
        simp [setAssoc, hk]] at hkv
      rcases List.mem_cons.mp hkv with hkv | hkv
      · subst hkv
        exact h (k', l) (by simp)
      · exact ih (fun kv' hkv' => h kv' (List.mem_cons_of_mem _ hkv')) hv hvp kv hkv

theorem groupStep_inv {pool : List Chunk} {g : GroupMap} {c : Chunk}
    (h : GroupInv pool g) (hc : c ∈ pool) : GroupInv pool (groupStep g c) := by
  unfold groupStep
  cases hs : sourceMatchOf c.content with
  | none =>
    exact setAssoc_inv h (by simp) (fun d hd => by
      have : d = c := by simpa using hd
      subst this; exact hc)
  | some s =>
    cases ht : targetMatchOf c.content with
    | none =>
      exact setAssoc_inv h (by simp) (fun d hd => by
        have : d = c := by simpa using hd
        subst this; exact hc)
    | some t => exact pushAssoc_inv h hc

theorem foldl_group_inv (pool : List Chunk) :
    ∀ (l : List Chunk) (g : GroupMap),
      GroupInv pool g → (∀ c ∈ l, c ∈ pool) →
      GroupInv pool (l.foldl groupStep g) := by
  intro l
  induction l with
  | nil => intro g hg _; simpa using hg
  | cons c l ih =>
    intro g hg hl
    exact ih (groupStep g c) (groupStep_inv hg (hl c (by simp)))
      (fun d hd => hl d (by simp [hd]))

theorem groupConnections_inv (conns : List Chunk) :
    GroupInv conns (groupConnections conns) :=
  foldl_group_inv conns conns []
    (fun kv hkv => absurd hkv (List.not_mem_nil kv)) (fun _ hc => hc)

/-- Skolemization over a list: a pool-wide provenance fact yields, for any
sublist of the pool, a matching list of source paragraphs. -/
theorem exists_paragraph_list {pool : List Chunk} {ps : List String}
    (hpool : ∀ c ∈ pool, ∃ p ∈ ps, c.content = strTrim p) :
    ∀ l : List Chunk, (∀ c ∈ l, c ∈ pool) →
      ∃ qs : List String, qs.length = l.length ∧ (∀ p ∈ qs, p ∈ ps) ∧
        l.map (·.content) = qs.map strTrim := by
  intro l
  induction l with
  | nil => exact fun _ => ⟨[], rfl, by simp, rfl⟩
  | cons c l ih =>
    intro hmem
    obtain ⟨p, hp, hcp⟩ := hpool c (hmem c (by simp))
    obtain ⟨qs, hlen, hqs, hmap⟩ := ih (fun d hd => hmem d (by simp [hd]))
    refine ⟨p :: qs, by simp [hlen], ?_, ?_⟩
    · intro r hr
      rcases List.mem_cons.mp hr with hr | hr
      · subst hr; exact hp
      · exact hqs r hr
    · simp [hcp, hmap]

/-- C10: every output element of the structural pass is "[COMPONENT]\n",
"[METADATA]\n" or "[CONNECTION_GROUP]\n" followed by trimmed paragraph
content (for a connection group, the "\n\n"-join of its member
paragraphs' trimmed contents), each element starts with exactly one of
the three tags (the other two are impossible as prefixes), and the output
lists all component segments first, then all metadata segments, then all
connection-group segments. -/
theorem componentBasedChunking_tagged_and_ordered (text : String) :
    ∃ cs ms gs : List String,
      componentBasedChunking text = cs ++ ms ++ gs ∧
      (∀ s ∈ cs, (∃ p ∈ splitParas text, s = "[COMPONENT]\n" ++ strTrim p) ∧
        ∀ y : String, s ≠ "[METADATA]\n" ++ y ∧ s ≠ "[CONNECTION_GROUP]\n" ++ y) ∧
      (∀ s ∈ ms, (∃ p ∈ splitParas text, s = "[METADATA]\n" ++ strTrim p) ∧
        ∀ y : String, s ≠ "[COMPONENT]\n" ++ y ∧ s ≠ "[CONNECTION_GROUP]\n" ++ y) ∧
      (∀ s ∈ gs, (∃ qs : List String, qs ≠ [] ∧ (∀ p ∈ qs, p ∈ splitParas text) ∧
          s = "[CONNECTION_GROUP]\n" ++ joinSep "\n\n" (qs.map strTrim)) ∧
        ∀ y : String, s ≠ "[COMPONENT]\n" ++ y ∧ s ≠ "[METADATA]\n" ++ y) := by
  have hinv := classifyParagraphs_inv (splitParas text)
  have hg := groupConnections_inv (classifyParagraphs (splitParas text)).conns
  refine ⟨((classifyParagraphs (splitParas text)).comps.filter keepChunk).map tagChunk,
          ((classifyParagraphs (splitParas text)).metas.filter keepChunk).map tagChunk,
          ((((groupConnections (classifyParagraphs (splitParas text)).conns).map
            fun kv => (⟨.connectionGroup,
              joinSep "\n\n" (kv.2.map (·.content))⟩ : Chunk)).filter keepChunk).map
            tagChunk),
          ?_, ?_, ?_, ?_⟩
  · unfold componentBasedChunking allChunksOf
    simp [List.filter_append, List.map_append]
  · intro s hs
    obtain ⟨c, hcf, hst⟩ := List.mem_map.mp hs
    have hcm := (List.mem_filter.mp hcf).1
    obtain ⟨htype, p, hp, hcontent⟩ := hinv.1 c hcm
    obtain ⟨t, cont⟩ := c
    simp only at htype hcontent
    subst htype; subst hcontent; subst hst
    constructor
    · exact ⟨p, hp, rfl⟩
    · intro y
      constructor
      · intro heq
        exact absurd (show (some 'C' : Option Char) = some 'M' from
          congrArg (fun s => s.data.get? 1) heq) (by decide)
      · intro heq
        exact absurd (show (some 'M' : Option Char) = some 'N' from
          congrArg (fun s => s.data.get? 3) heq) (by decide)
  · intro s hs
    obtain ⟨c, hcf, hst⟩ := List.mem_map.mp hs
    have hcm := (List.mem_filter.mp hcf).1
    obtain ⟨htype, p, hp, hcontent⟩ := hinv.2.1 c hcm
    obtain ⟨t, cont⟩ := c
    simp only at htype hcontent
    subst htype; subst hcontent; subst hst
    constructor
    · exact ⟨p, hp, rfl⟩
    · intro y
      constructor
      · intro heq
        exact absurd (show (some 'M' : Option Char) = some 'C' from
          congrArg (fun s => s.data.get? 1) heq) (by decide)
      · intro heq
        exact absurd (show (some 'M' : Option Char) = some 'C' from
          congrArg (fun s => s.data.get? 1) heq) (by decide)
  · intro s hs
    obtain ⟨c, hcf, hst⟩ := List.mem_map.mp hs
    have hcm := (List.mem_filter.mp hcf).1
    obtain ⟨kv, hkv, hck⟩ := List.mem_map.mp hcm
    obtain ⟨hne, hmem⟩ := hg kv hkv
    obtain ⟨qs, hlen, hqs, hmap⟩ :=
      exists_paragraph_list (fun d hd => (hinv.2.2 d hd).2) kv.2 hmem
    subst hck; subst hst
    constructor
    · refine ⟨qs, ?_, hqs, ?_⟩
      · intro hqnil
        subst hqnil
        simp only [List.length_nil] at hlen
        exact hne (List.eq_nil_of_length_eq_zero hlen.symm)
      · show _ = "[CONNECTION_GROUP]\n" ++ joinSep "\n\n" (qs.map strTrim)
        rw [← hmap]
        rfl
    · intro y
      constructor
      · intro heq
        exact absurd (show (some 'N' : Option Char) = some 'M' from
          congrArg (fun s => s.data.get? 3) heq) (by decide)
      · intro heq
        exact absurd (show (some 'C' : Option Char) = some 'M' from
          congrArg (fun s => s.data.get? 1) heq) (by decide)

end SecAnalyzer
